import Mathlib

/-!
Verification of the Noticing Game backend. This file gives a shallow
embedding of the relevant parts of `src/backend/subtitle_server.py` and
`src/backend/start_server.py`, and proves the behavioural properties the
specification states about them.

Conventions of the embedding:
* Python strings are modelled as `List Char`, with `String` wrappers at the
  API boundary; Python `float` values are modelled as exact rationals `ℚ`,
  so the arithmetic structure of the code is captured without IEEE rounding.
* Fallible Python code is modelled with `Option` and `Except`; an exception
  that the code converts or catches is modelled by the corresponding branch.
* External effects (yt-dlp network calls, the temporary directory, the XML
  parser front end) are modelled as explicit inputs describing their
  outcome.
-/

namespace NoticingGame

/-- Numeric value of a list of decimal digit characters, most significant
first, as used when reading the digit runs of a float literal. -/
def digitsVal (l : List Char) : Nat :=
  l.foldl (fun a c => a * 10 + (c.toNat - '0'.toNat)) 0

/-- Code points that CPython `float(str)` accepts as surrounding
whitespace (verified against CPython: 09-0D, 20, 85, A0, 1680, 2000-200A,
2028, 2029, 202F, 205F, 3000). -/
def pySpace (c : Char) : Bool :=
  (9 ≤ c.toNat && c.toNat ≤ 13) || c.toNat = 32 || c.toNat = 133 ||
    c.toNat = 160 || c.toNat = 5760 || (8192 ≤ c.toNat && c.toNat ≤ 8202) ||
    c.toNat = 8232 || c.toNat = 8233 || c.toNat = 8239 || c.toNat = 8287 ||
    c.toNat = 12288

/-- Strip the whitespace `float(str)` ignores from both ends. -/
def pyStripSpace (l : List Char) : List Char :=
  ((l.dropWhile pySpace).reverse.dropWhile pySpace).reverse

/-- Characters of a digit run as written: digits and grouping
underscores. -/
def digitU (c : Char) : Bool := c.isDigit || c = '_'

/-- No two adjacent underscores in a run. -/
def noAdjUnderscore : List Char → Bool
  | c1 :: c2 :: rest => !(c1 = '_' && c2 = '_') && noAdjUnderscore (c2 :: rest)
  | _ => true

/-- Validity of a digit-and-underscore run per the CPython grouping rule:
every underscore sits directly between two digits (equivalently for such a
run: empty, or digit at both ends and no adjacent underscores). -/
def runOK (run : List Char) : Bool :=
  run.isEmpty ||
    ((run.head?.map Char.isDigit).getD false &&
      (run.getLast?.map Char.isDigit).getD false &&
      noAdjUnderscore run)

/-- The digits of a run with the grouping underscores removed. -/
def runDigits (run : List Char) : List Char := run.filter (fun c => c != '_')

/-- Exponent tail of a float literal: a non-empty digit run (underscores
allowed between digits), negated when `neg` is set, scaling the mantissa
`q` by ten to that power. -/
def parseExpDigits (q : ℚ) (neg : Bool) (ds : List Char) : Option ℚ :=
  if ds = [] ∨ ¬ (ds.all digitU && runOK ds) then none
  else
    let e : ℤ :=
      if neg then -(digitsVal (runDigits ds) : ℤ) else (digitsVal (runDigits ds) : ℤ)
    some (q * (10 : ℚ) ^ e)

/-- Continuation after the mantissa `q` of a float literal: the remaining
characters must be empty, or `e`/`E` followed by an optional sign and a
non-empty digit run. -/
def parseExpPart (q : ℚ) : List Char → Option ℚ
  | [] => some q
  | [_] => none
  | c :: c2 :: r =>
    if c = 'e' ∨ c = 'E' then
      if c2 = '-' then parseExpDigits q true r
      else if c2 = '+' then parseExpDigits q false r
      else parseExpDigits q false (c2 :: r)
    else none

/-- Fractional part of a float literal: `ip` holds the integer digits
already read (underscores removed), `r2` the characters after the decimal
point. -/
def parseFrac (sgn : ℚ) (ip r2 : List Char) : Option ℚ :=
  let fpRun := r2.takeWhile digitU
  let r3 := r2.dropWhile digitU
  if ¬ runOK fpRun then none
  else if ip = [] ∧ fpRun = [] then none
  else parseExpPart (sgn * ((digitsVal ip : ℚ) +
    (digitsVal (runDigits fpRun) : ℚ) / (10 : ℚ) ^ (runDigits fpRun).length)) r3

/-- Continuation of a float literal after the leading digit run `ip`. -/
def parseAfterDigits (sgn : ℚ) (ip : List Char) : List Char → Option ℚ
  | c :: r2 =>
    if c = '.' then parseFrac sgn ip r2
    else if ip = [] then none
    else parseExpPart (sgn * (digitsVal ip : ℚ)) (c :: r2)
  | [] => if ip = [] then none else some (sgn * (digitsVal ip : ℚ))

/-- Unsigned part of a float literal: leading digit run (with grouping
underscores validated and removed), then fraction or exponent. -/
def parseBody (sgn : ℚ) (l1 : List Char) : Option ℚ :=
  let ipRun := l1.takeWhile digitU
  let r1 := l1.dropWhile digitU
  if ¬ runOK ipRun then none
  else parseAfterDigits sgn (runDigits ipRun) r1

/-- Model of the Python builtin `float(str)` on inputs denoting finite
decimal values: surrounding whitespace is stripped, then an optional sign,
a digit run with optional fractional part (at least one digit overall,
grouping underscores allowed between digits) and an optional exponent,
exactly as CPython accepts them (values as exact rationals). Strings that
CPython parses to an infinity or NaN have no rational value and are
covered by `pyFloatSpecial`; `pyFloatOK` combines both and treats strings
with non-ASCII characters conservatively (CPython also converts Unicode
digits and spaces). -/
def parseFloat (l : List Char) : Option ℚ :=
  match pyStripSpace l with
  | c :: r =>
    if c = '-' then parseBody (-1) r
    else if c = '+' then parseBody 1 r
    else parseBody 1 (c :: r)
  | [] => none

/-- Strings that CPython `float(str)` parses to an infinity or NaN:
optional surrounding whitespace and sign around a case-insensitive `inf`,
`infinity` or `nan`. -/
def pyFloatSpecial (l : List Char) : Bool :=
  let t := pyStripSpace l
  let core : List Char :=
    match t with
    | c :: r => if c = '+' ∨ c = '-' then r else t
    | [] => t
  let low := core.map Char.toLower
  low == "inf".data || low == "infinity".data || low == "nan".data

/-- Inputs on which CPython `float(str)` may succeed: a finite decimal
value, an infinity or NaN form, or any string containing a non-ASCII
character (conservative, since CPython converts Unicode digits and
spaces; on pure-ASCII strings outside the first two cases `float`
raises `ValueError`). -/
def pyFloatOK (l : List Char) : Prop :=
  (∃ q, parseFloat l = some q) ∨ pyFloatSpecial l = true ∨ ∃ c ∈ l, 127 < c.toNat

/-- Characters that can appear in an input accepted by `parseFloat`. -/
def floatChar (c : Char) : Bool :=
  c.isDigit || c = '.' || c = 'e' || c = 'E' || c = '+' || c = '-' ||
    c = '_' || pySpace c

/-- Model of Python `str.split(sep)` for a one-character separator: the
result is never empty, and splitting the empty string yields one empty
part. -/
def pySplit (sep : Char) : List Char → List (List Char)
  | [] => [[]]
  | c :: rest =>
    if c = sep then [] :: pySplit sep rest
    else
      match pySplit sep rest with
      | [] => [[c]]
      | p :: ps => (c :: p) :: ps

/-- Value of the three-part clock branch of `time_to_seconds`:
hours times 3600 plus minutes times 60 plus seconds, or 0 when any
`float(...)` call raises (caught by the except clause of the function). -/
def tts3 (h m s : List Char) : ℚ :=
  match parseFloat h, parseFloat m, parseFloat s with
  | some qh, some qm, some qs => qh * 3600 + qm * 60 + qs
  | _, _, _ => 0

/-- Value of the two-part clock branch of `time_to_seconds`. -/
def tts2 (m s : List Char) : ℚ :=
  match parseFloat m, parseFloat s with
  | some qm, some qs => qm * 60 + qs
  | _, _ => 0

/-- Dispatch of `time_to_seconds` on the parts of the colon split: three
parts, two parts, otherwise fall through to `float` of the whole string
(which then contains a colon, so it raises and the except clause yields
0). -/
def ttsParts (l : List Char) : List (List Char) → ℚ
  | [h, m, s] => tts3 h m s
  | [m, s] => tts2 m s
  | _ => (parseFloat l).getD 0

/-- Model of `SubtitleExtractor.time_to_seconds` on the character list of
its input. Branch order follows the source exactly: empty string, trailing
`s` (seconds form, `float` of the rest), colon form, finally a bare
`float`. A `float(...)` call that raises is caught by the except clause of
the function and yields 0.0, modelled by `Option.getD 0` and the
fall-through branches. -/
def ttsList (l : List Char) : ℚ :=
  if l = [] then 0
  else if l.getLast? = some 's' then (parseFloat l.dropLast).getD 0
  else if l.contains ':' then ttsParts l (pySplit ':' l)
  else (parseFloat l).getD 0

/-- Model of `SubtitleExtractor.time_to_seconds` (string front end). -/
def time_to_seconds (s : String) : ℚ := ttsList s.data

/-- Join a list of parts with a separator character; inverse of
`pySplit`. -/
def joinSep (sep : Char) : List (List Char) → List Char
  | [] => []
  | [p] => p
  | p :: ps => p ++ sep :: joinSep sep ps

/-- Time strings on which some branch of `time_to_seconds` may parse
without raising: a seconds form whose prefix `float` may accept, a clock
form whose two or three parts it may accept, or a bare such string
(acceptance per `pyFloatOK`, which is conservative for special and
non-ASCII inputs). -/
def timeParseable (l : List Char) : Prop :=
  (∃ t, l = t ++ ['s'] ∧ pyFloatOK t) ∨
  (∃ a b c, l = a ++ ':' :: (b ++ ':' :: c) ∧
    pyFloatOK a ∧ pyFloatOK b ∧ pyFloatOK c) ∨
  (∃ a b, l = a ++ ':' :: b ∧ pyFloatOK a ∧ pyFloatOK b) ∨
  pyFloatOK l

/-- Fixed language priority list of `get_subtitles`. -/
def lang_priority : List String := ["en", "en-US", "en-GB", "es"]

/-- Subtitle source chosen by `get_subtitles`: manual subtitles are used
whenever any manual track exists, otherwise automatic captions (the
variable `subtitle_source`, initialised to manual). -/
def chooseSource (manual auto : List String) : String :=
  if ¬ manual.isEmpty then "manual"
  else if ¬ auto.isEmpty then "automatic"
  else "manual"

/-- Language list the selection runs over (`available_langs`). -/
def chooseLangs (manual auto : List String) : List String :=
  if ¬ manual.isEmpty then manual
  else if ¬ auto.isEmpty then auto
  else []

/-- Language chosen from `langs`: the first entry of `lang_priority` that
is present, else the head of `langs` (`none` models the unreachable
`available_langs[0]` IndexError on an empty list). -/
def selectLanguage (langs : List String) : Option String :=
  match lang_priority.find? (fun l => langs.contains l) with
  | some l => some l
  | none => langs.head?

/-- Declarative reading of the language selection: either `l` is the first
priority language present in `langs`, or no priority language is present
and `l` is the first available language. -/
def chosenLang (langs : List String) (l : String) : Prop :=
  (∃ i : ℕ, ∃ hi : i < lang_priority.length, lang_priority[i] = l ∧ l ∈ langs ∧
    ∀ j : ℕ, (hj : j < lang_priority.length) → j < i → lang_priority[j] ∉ langs) ∨
  ((∀ p ∈ lang_priority, p ∉ langs) ∧ langs.head? = some l)

/-- Character class `[a-zA-Z0-9_-]` of the video-id patterns. -/
def validChar (c : Char) : Bool := c.isAlphanum || c = '_' || c = '-'

/-- Take exactly `n` characters of the id character class, returning them
and the remainder (the capture group of eleven id characters). -/
def takeId : Nat → List Char → Option (List Char × List Char)
  | 0, rest => some ([], rest)
  | _ + 1, [] => none
  | n + 1, c :: rest =>
    if validChar c then (takeId n rest).map (fun p => (c :: p.1, p.2)) else none

/-- Match a literal character sequence at the head of the input, returning
the remainder. -/
def dropLit : List Char → List Char → Option (List Char)
  | [], l => some l
  | _ :: _, [] => none
  | p :: ps, c :: cs => if c = p then dropLit ps cs else none

/-- Match one of an ordered list of optional literal alternatives, keeping
the input unchanged when none applies (the optional scheme and `www.`
groups of the regexes; the https-then-http order realizes the greedy
optional `s`). -/
def dropOpt : List (List Char) → List Char → List Char
  | [], l => l
  | v :: vs, l => (dropLit v l).getD (dropOpt vs l)

/-- Alternatives of the optional scheme group. -/
def schemeVariants : List (List Char) := ["https://".data, "http://".data]

/-- Alternatives of the optional `www.` group. -/
def wwwVariants : List (List Char) := ["www.".data]

/-- Attempt one of the three URL patterns at the current position: optional
scheme, optional `www.`, the fixed literal `lit`, then an 11-character
id. -/
def matchPat (lit : List Char) (l : List Char) : Option (List Char) :=
  match dropLit lit (dropOpt wwwVariants (dropOpt schemeVariants l)) with
  | some r => (takeId 11 r).map Prod.fst
  | none => none

/-- Model of `re.search`: try the pattern at every position, leftmost match
wins. -/
def searchPat (lit : List Char) : List Char → Option (List Char)
  | [] => none
  | c :: rest =>
    match matchPat lit (c :: rest) with
    | some id => some id
    | none => searchPat lit rest

/-- Literal of the watch-URL pattern. -/
def watchLit : List Char := "youtube.com/watch?v=".data

/-- Literal of the short-URL pattern. -/
def beLit : List Char := "youtu.be/".data

/-- Literal of the embed-URL pattern. -/
def embedLit : List Char := "youtube.com/embed/".data

/-- Strings matched by the anchored bare-id pattern of `re.match`: eleven
id characters, where the trailing dollar anchor of Python also matches
just before a single final newline, so an eleven-character id followed by
one newline matches as well (and the code then returns the url with the
newline included). -/
def bareRegexMatch (l : List Char) : Bool :=
  (l.length == 11 && l.all validChar) ||
    (l.length == 12 && l.getLast? == some '\n' && l.dropLast.all validChar)

/-- Model of `SubtitleExtractor.extract_video_id`: the three `re.search`
patterns in source order, then the bare-id `re.match`. -/
def extract_video_id (url : String) : Option String :=
  match searchPat watchLit url.data with
  | some id => some (String.mk id)
  | none =>
    match searchPat beLit url.data with
    | some id => some (String.mk id)
    | none =>
      match searchPat embedLit url.data with
      | some id => some (String.mk id)
      | none =>
        if bareRegexMatch url.data then some url else none

/-- Strings the optional scheme group can consume. -/
def schemeOK (sch : List Char) : Prop :=
  sch = [] ∨ sch = "http://".data ∨ sch = "https://".data

/-- Strings the optional `www.` group can consume. -/
def wwwOK (w : List Char) : Prop := w = [] ∨ w = "www.".data

/-- An 11-character video id over the id character class. -/
def validId (id : List Char) : Prop :=
  id.length = 11 ∧ ∀ c ∈ id, validChar c = true

/-- Declarative reading of the bare-id branch: a bare 11-character id,
optionally followed by a single trailing newline (matched by the dollar
anchor of the Python pattern). -/
def bareOK (l : List Char) : Prop :=
  validId l ∨ ∃ v, l = v ++ ['\n'] ∧ validId v

/-- The list `l` contains an occurrence of the URL pattern with literal
`lit` whose capture group is exactly `id`. -/
def hasShapeWith (lit l id : List Char) : Prop :=
  ∃ pre sch w rest, schemeOK sch ∧ wwwOK w ∧ validId id ∧
    l = pre ++ (sch ++ (w ++ (lit ++ (id ++ rest))))

/-- The list `l` contains an occurrence of the URL pattern with literal
`lit`. -/
def hasShape (lit l : List Char) : Prop := ∃ id, hasShapeWith lit l id

/-- The list `l` contains one of the three YouTube URL shapes. -/
def containsShape (l : List Char) : Prop :=
  hasShape watchLit l ∨ hasShape beLit l ∨ hasShape embedLit l

/-- An id returned by `extract_video_id` is captured by one of the URL
shapes in the input, or the input itself matched the bare-id pattern and
is returned whole. -/
def capturedId (l id : List Char) : Prop :=
  hasShapeWith watchLit l id ∨ hasShapeWith beLit l id ∨
    hasShapeWith embedLit l id ∨ (l = id ∧ bareOK id)

mutual

/-- An XML document as produced by `xml.etree.ElementTree`: elements carry
a namespace and local tag (ElementTree writes namespaced tags with the URI
in braces), attributes and children; text is interleaved as child nodes
(covering both the text and tail content of ElementTree). -/
inductive XNode where
  | elem (ns tag : String) (attrs : List (String × String)) (children : XNodes)
  | text (s : String)

/-- A sequence of XML child nodes. -/
inductive XNodes where
  | nil
  | cons (n : XNode) (rest : XNodes)

end

/-- TTML namespace bound to the ttml prefix in `parse_ttml_subtitles`. -/
def ttmlNS : String := "http://www.w3.org/ns/ttml"

mutual

/-- Model of joining `element.itertext()`: all text content of a node, in
document order. -/
def itertextN : XNode → List Char
  | .text s => s.data
  | .elem _ _ _ cs => itertextL cs

/-- Text content of a sequence of nodes. -/
def itertextL : XNodes → List Char
  | .nil => []
  | .cons n ns => itertextN n ++ itertextL ns

end

mutual

/-- Search for descendant `p` elements below one node. -/
def findPsN : XNode → List XNode
  | .text _ => []
  | .elem _ _ _ cs => findPsL cs

/-- Model of `root.findall` with the descendant `p` path over a child
sequence: every descendant element whose tag is `p` in the TTML namespace,
in document order. -/
def findPsL : XNodes → List XNode
  | .nil => []
  | .cons (.text _) rest => findPsL rest
  | .cons (.elem ns tag a cs) rest =>
    (if ns = ttmlNS ∧ tag = "p" then [XNode.elem ns tag a cs] else []) ++
      (findPsL cs ++ findPsL rest)

end

/-- All `p` elements found below the document root. -/
def pElems (root : XNode) : List XNode := findPsN root

/-- Model of Python `str.strip()` (ASCII whitespace). -/
def pyStrip (l : List Char) : List Char :=
  ((l.dropWhile Char.isWhitespace).reverse.dropWhile Char.isWhitespace).reverse

/-- Model of `element.get(key, default)`. -/
def getAttr (attrs : List (String × String)) (k dflt : String) : String :=
  match attrs.find? (fun p => p.1 == k) with
  | some p => p.2
  | none => dflt

/-- One subtitle segment; the field `stop` models the dictionary key `end`
(a Lean keyword). -/
structure Segment where
  text : String
  start : ℚ
  stop : ℚ
  duration : ℚ
deriving DecidableEq

/-- Body of the loop over `p` elements in `parse_ttml_subtitles`: a `p`
element yields a segment unless its stripped text is empty. -/
def mkSegment (p : XNode) : Option Segment :=
  match p with
  | .text _ => none
  | .elem _ _ attrs cs =>
    let b := getAttr attrs "begin" "0s"
    let e := getAttr attrs "end" "0s"
    let txt := pyStrip (itertextL cs)
    if txt = [] then none
    else some ⟨String.mk txt, time_to_seconds b, time_to_seconds e,
      time_to_seconds e - time_to_seconds b⟩

/-- Model of `SubtitleExtractor.parse_ttml_subtitles`; the `Except` input
is the outcome of `ET.fromstring` (`error` models a raised `ParseError`,
which the function catches, returning the empty list). -/
def parse_ttml_subtitles (inp : Except String XNode) : List Segment :=
  match inp with
  | .error _ => []
  | .ok root => (pElems root).filterMap mkSegment

/-- Sample `p` element used by the concrete witnesses. -/
def sampleP : XNode :=
  .elem ttmlNS "p" [("begin", "1s"), ("end", "3s")] (.cons (.text "Hi") .nil)

/-- Sample TTML document used by the concrete witnesses. -/
def sampleRoot : XNode :=
  .elem ttmlNS "tt" [] (.cons (.elem ttmlNS "body" [] (.cons sampleP .nil)) .nil)

/-- Segment produced for `sampleP`. -/
def sampleSeg : Segment :=
  ⟨"Hi", time_to_seconds "1s", time_to_seconds "3s",
    time_to_seconds "3s" - time_to_seconds "1s"⟩

/-- Whitespace-only `p` element used by the concrete witnesses. -/
def blankP : XNode := .elem ttmlNS "p" [] (.cons (.text "  ") .nil)

/-- Document holding only `blankP`. -/
def blankRoot : XNode := .elem ttmlNS "tt" [] (.cons blankP .nil)

/-- JSON values, as produced by the Flask `jsonify` helper. -/
inductive JVal where
  | str (s : String)
  | bool (b : Bool)
  | num (q : ℚ)
  | arr (l : List JVal)
  | obj (l : List (String × JVal))

/-- Whether `l` starts with `p`. -/
def startsWithL : List Char → List Char → Bool
  | [], _ => true
  | _ :: _, [] => false
  | p :: ps, c :: cs => c = p && startsWithL ps cs

/-- Substring test of Python (the `in` operator) on character lists. -/
def containsSubL (pat : List Char) : List Char → Bool
  | [] => pat.isEmpty
  | c :: cs => startsWithL pat (c :: cs) || containsSubL pat cs

/-- Substring test of Python (the `in` operator) on strings. -/
def containsSub (pat s : String) : Bool := containsSubL pat.data s.data

/-- Model of Python `str.endswith`. -/
def pyEndsWith (s suf : String) : Bool := startsWithL suf.data.reverse s.data.reverse

/-- Model of Python `str.lower` (ASCII). -/
def pyLower (s : String) : String := String.mk (s.data.map Char.toLower)

/-- Error body with success false and the given message. -/
def errBody (msg : String) : List (String × JVal) :=
  [("success", .bool false), ("error", .str msg)]

/-- The home route (GET on the root path): `jsonify` with the Flask
default 200 status; `now` stands for the current ISO timestamp. -/
def home (now : String) : Nat × List (String × JVal) :=
  (200, [("status", .str "running"),
    ("service", .str "Noticing Game Subtitle Server"),
    ("version", .str "0.1.1"),
    ("timestamp", .str now)])

/-- Fields of the yt-dlp info dictionary that `get_subtitles` reads. -/
structure InfoDict where
  title : Option String
  subtitles : List String
  automatic_captions : List String

/-- Outcome of the external world during one `get_subtitles` call: whether
creating the temporary directory raises, the result of `ydl.extract_info`
(`error` carries the `DownloadError` message), the directory listing after
the download, and the `ET.fromstring` outcome for the downloaded subtitle
file. -/
structure World where
  tempFail : Bool
  info : Except String InfoDict
  files : List String
  fileTTML : Except String XNode

/-- Result of a Python call: a value, a raised `ValueError`, or any other
exception. -/
inductive PyResult (α : Type) where
  | ok (a : α)
  | valueError (msg : String)
  | otherError

/-- Handler of `yt_dlp.DownloadError` in `get_subtitles`: the message is
classified by substring tests into the specific `ValueError` messages. -/
def classifyDownloadError (msg : String) : String :=
  if containsSub "Private video" msg then "This video is private and cannot be accessed"
  else if containsSub "Video unavailable" msg then "This video is unavailable"
  else if containsSub "not available" (pyLower msg) then
    "This video or its subtitles are not available"
  else "Download error: " ++ msg

/-- One segment as a JSON object (the dictionary appended by
`parse_ttml_subtitles`; the key `end` carries the `stop` field). -/
def segJson (s : Segment) : JVal :=
  .obj [("text", .str s.text), ("start", .num s.start), ("end", .num s.stop),
    ("duration", .num s.duration)]

/-- Success dictionary returned by `get_subtitles`. -/
def successBody (vid title lang source : String) (subs : List Segment) :
    List (String × JVal) :=
  [("success", .bool true), ("video_id", .str vid), ("video_title", .str title),
    ("language", .str lang), ("source", .str source),
    ("subtitle_count", .num (subs.length : ℚ)),
    ("subtitles", .arr (subs.map segJson))]

/-- Model of `SubtitleExtractor.get_subtitles`. Exceptions raised inside
the inner try block are converted to `ValueError` by its handlers; only a
failure before the try block (temporary-directory creation) escapes as a
non-`ValueError` exception, modelled by `otherError`. -/
def get_subtitles (url : String) (w : World) : PyResult (List (String × JVal)) :=
  match extract_video_id url with
  | none => .valueError "Invalid YouTube URL or video ID"
  | some vid =>
    if w.tempFail then .otherError
    else
      match w.info with
      | .error msg => .valueError (classifyDownloadError msg)
      | .ok info =>
        if info.subtitles.isEmpty ∧ info.automatic_captions.isEmpty then
          .valueError "No subtitles available for this video"
        else
          match selectLanguage (chooseLangs info.subtitles info.automatic_captions) with
          | none => .valueError "Error extracting subtitles: list index out of range"
          | some lang =>
            match w.files.filter (fun f => pyEndsWith f ".ttml" && containsSub lang f) with
            | [] => .valueError "Subtitle file not found after download"
            | _ :: _ =>
              match parse_ttml_subtitles w.fileTTML with
              | [] => .valueError "Could not parse subtitle content"
              | parsed =>
                .ok (successBody vid (info.title.getD "Unknown") lang
                  (chooseSource info.subtitles info.automatic_captions) parsed)

/-- Tail of the route handler: a returned dictionary becomes a 200
response, a `ValueError` a 400 with its message, and any other exception a
500 with the generic message. -/
def routeOutcome (r : PyResult (List (String × JVal))) : Nat × List (String × JVal) :=
  match r with
  | .ok body => (200, body)
  | .valueError m => (400, errBody m)
  | .otherError => (500, errBody "Internal server error")

/-- Route behaviour after `request.get_json()` produced a dictionary: `u`
is the looked-up url value. -/
def routeUrl (w : World) (u : Option String) : Nat × List (String × JVal) :=
  match u with
  | none => (400, errBody "Missing video URL in request body")
  | some url => routeOutcome (get_subtitles url w)

/-- Model of the POST route `/extract-subtitles`. Here `data` is the
parsed JSON body (`none` when `request.get_json()` returned `None`); the
guard on falsy data or a missing url key is equivalent to the url lookup
failing, since an empty dictionary has no url key. -/
def extract_subtitles_route (data : Option (List (String × String))) (w : World) :
    Nat × List (String × JVal) :=
  match data with
  | none => (400, errBody "Missing video URL in request body")
  | some d => routeUrl w (d.lookup "url")

/-- Server-related keys a config file may define (other keys are
irrelevant to the bind address). -/
structure ConfigFile where
  server_host : Option String
  server_port : Option Nat

/-- State of the JSON config file in the home directory: missing,
unreadable (JSON or IO error), or readable with the given keys. -/
inductive FileState where
  | absent
  | unreadable
  | readable (c : ConfigFile)

/-- Model of `load_config` of `start_server.py`: built-in defaults,
overridden by whatever keys the file defines (dictionary merge); any read
error falls back to the defaults. -/
def load_config (fs : FileState) : String × Nat :=
  match fs with
  | .absent => ("127.0.0.1", 5000)
  | .unreadable => ("127.0.0.1", 5000)
  | .readable c => (c.server_host.getD "127.0.0.1", c.server_port.getD 5000)

/-- Host that `start_server.py` binds: argparse uses the config value as
the default of the host flag, so a supplied flag wins and otherwise the
config value is used; the result is passed to `app.run`. -/
def resolveHost (flag : Option String) (fs : FileState) : String :=
  flag.getD (load_config fs).1

/-- Port that `start_server.py` binds (the port flag, same scheme). -/
def resolvePort (flag : Option Nat) (fs : FileState) : Nat :=
  flag.getD (load_config fs).2

lemma floatChar_of_isDigit {c : Char} (h : c.isDigit = true) : floatChar c = true := by
  simp [floatChar, h]

lemma floatChar_of_digitU {c : Char} (h : digitU c = true) : floatChar c = true := by
  simp only [digitU, Bool.or_eq_true] at h
  rcases h with h | h
  · exact floatChar_of_isDigit h
  · simp [floatChar, h]

lemma floatChar_of_pySpace {c : Char} (h : pySpace c = true) : floatChar c = true := by
  simp [floatChar, h]

lemma parseExpDigits_eq_some {q q' : ℚ} {neg : Bool} {ds : List Char}
    (h : parseExpDigits q neg ds = some q') :
    ds ≠ [] ∧ ∀ c ∈ ds, digitU c = true := by
  unfold parseExpDigits at h
  split at h
  · simp at h
  · rename_i hcond
    push_neg at hcond
    obtain ⟨h1, h2⟩ := hcond
    refine ⟨h1, fun c hc => ?_⟩
    have h3 : (ds.all digitU && runOK ds) = true := by
      revert h2
      cases ds.all digitU && runOK ds <;> simp
    simp only [Bool.and_eq_true] at h3
    exact List.all_eq_true.mp h3.1 c hc

lemma parseExpPart_floatChar {q q' : ℚ} {l : List Char}
    (h : parseExpPart q l = some q') : ∀ c ∈ l, floatChar c = true := by
  intro c hc
  match l with
  | [] => cases hc
  | [e] => exact absurd h (by simp [parseExpPart])
  | e :: c2 :: r =>
    rw [parseExpPart] at h
    by_cases he : e = 'e' ∨ e = 'E'
    · rw [if_pos he] at h
      have hec : floatChar e = true := by rcases he with rfl | rfl <;> decide
      by_cases h2 : c2 = '-'
      · rw [if_pos h2] at h
        have hds := parseExpDigits_eq_some h
        rcases List.mem_cons.mp hc with rfl | hc'
        · exact hec
        rcases List.mem_cons.mp hc' with rfl | hc''
        · subst h2; decide
        · exact floatChar_of_digitU (hds.2 c hc'')
      · rw [if_neg h2] at h
        by_cases h3 : c2 = '+'
        · rw [if_pos h3] at h
          have hds := parseExpDigits_eq_some h
          rcases List.mem_cons.mp hc with rfl | hc'
          · exact hec
          rcases List.mem_cons.mp hc' with rfl | hc''
          · subst h3; decide
          · exact floatChar_of_digitU (hds.2 c hc'')
        · rw [if_neg h3] at h
          have hds := parseExpDigits_eq_some h
          rcases List.mem_cons.mp hc with rfl | hc'
          · exact hec
          · exact floatChar_of_digitU (hds.2 c hc')
    · rw [if_neg he] at h
      cases h

lemma parseFrac_floatChar {sgn : ℚ} {ip r2 : List Char} {q' : ℚ}
    (h : parseFrac sgn ip r2 = some q') : ∀ c ∈ r2, floatChar c = true := by
  intro c hc
  simp only [parseFrac] at h
  split at h
  · cases h
  · split at h
    · cases h
    · have hsplit := List.takeWhile_append_dropWhile (p := digitU) (l := r2)
      rw [← hsplit] at hc
      rcases List.mem_append.mp hc with h1 | h2
      · exact floatChar_of_digitU (List.mem_takeWhile_imp h1)
      · exact parseExpPart_floatChar h c h2

lemma parseAfterDigits_floatChar {sgn : ℚ} {ip r1 : List Char} {q' : ℚ}
    (h : parseAfterDigits sgn ip r1 = some q') : ∀ c ∈ r1, floatChar c = true := by
  intro c hc
  match r1 with
  | [] => cases hc
  | c1 :: r2 =>
    rw [parseAfterDigits] at h
    by_cases h1 : c1 = '.'
    · rw [if_pos h1] at h
      rcases List.mem_cons.mp hc with rfl | hc'
      · subst h1; decide
      · exact parseFrac_floatChar h c hc'
    · rw [if_neg h1] at h
      by_cases h2 : ip = []
      · rw [if_pos h2] at h; cases h
      · rw [if_neg h2] at h
        exact parseExpPart_floatChar h c hc

lemma parseBody_floatChar {sgn : ℚ} {l1 : List Char} {q' : ℚ}
    (h : parseBody sgn l1 = some q') : ∀ c ∈ l1, floatChar c = true := by
  intro c hc
  simp only [parseBody] at h
  split at h
  · cases h
  · rw [← List.takeWhile_append_dropWhile (p := digitU) (l := l1)] at hc
    rcases List.mem_append.mp hc with h1 | h2
    · exact floatChar_of_digitU (List.mem_takeWhile_imp h1)
    · exact parseAfterDigits_floatChar h c h2

lemma pyStripSpace_decomp (l : List Char) :
    ∃ pre suf, l = pre ++ (pyStripSpace l ++ suf) ∧
      (∀ c ∈ pre, pySpace c = true) ∧ (∀ c ∈ suf, pySpace c = true) := by
  refine ⟨l.takeWhile pySpace,
    ((l.dropWhile pySpace).reverse.takeWhile pySpace).reverse, ?_, ?_, ?_⟩
  · conv_lhs => rw [← List.takeWhile_append_dropWhile (p := pySpace) (l := l)]
    congr 1
    unfold pyStripSpace
    set t := l.dropWhile pySpace with ht
    have hsplit : t.reverse.takeWhile pySpace ++ t.reverse.dropWhile pySpace = t.reverse :=
      List.takeWhile_append_dropWhile pySpace t.reverse
    calc t = t.reverse.reverse := (List.reverse_reverse t).symm
      _ = (t.reverse.takeWhile pySpace ++ t.reverse.dropWhile pySpace).reverse := by
          rw [hsplit]
      _ = (t.reverse.dropWhile pySpace).reverse ++ (t.reverse.takeWhile pySpace).reverse := by
          rw [List.reverse_append]
  · intro c hcm
    exact List.mem_takeWhile_imp hcm
  · intro c hcm
    rw [List.mem_reverse] at hcm
    exact List.mem_takeWhile_imp hcm

lemma parseFloatCore_floatChar {t : List Char} {q : ℚ}
    (h : (match t with
      | c :: r =>
        if c = '-' then parseBody (-1) r
        else if c = '+' then parseBody 1 r
        else parseBody 1 (c :: r)
      | [] => (none : Option ℚ)) = some q) :
    ∀ c ∈ t, floatChar c = true := by
  intro c hc
  match t with
  | [] => cases hc
  | c1 :: r =>
    have h' : (if c1 = '-' then parseBody (-1) r
        else if c1 = '+' then parseBody 1 r else parseBody 1 (c1 :: r)) = some q := h
    by_cases h1 : c1 = '-'
    · rw [if_pos h1] at h'
      rcases List.mem_cons.mp hc with rfl | hc'
      · subst h1; decide
      · exact parseBody_floatChar h' c hc'
    · rw [if_neg h1] at h'
      by_cases h2 : c1 = '+'
      · rw [if_pos h2] at h'
        rcases List.mem_cons.mp hc with rfl | hc'
        · subst h2; decide
        · exact parseBody_floatChar h' c hc'
      · rw [if_neg h2] at h'
        exact parseBody_floatChar h' c hc

lemma parseFloat_floatChar {l : List Char} {q : ℚ}
    (h : parseFloat l = some q) : ∀ c ∈ l, floatChar c = true := by
  intro c hc
  obtain ⟨pre, suf, heq, hpre, hsuf⟩ := pyStripSpace_decomp l
  rw [heq] at hc
  rcases List.mem_append.mp hc with h1 | h2
  · exact floatChar_of_pySpace (hpre c h1)
  · rcases List.mem_append.mp h2 with h3 | h4
    · exact parseFloatCore_floatChar h c h3
    · exact floatChar_of_pySpace (hsuf c h4)

lemma parseFloat_ne_nil {l : List Char} {q : ℚ} (h : parseFloat l = some q) : l ≠ [] := by
  intro hl
  subst hl
  have hnone : parseFloat ([] : List Char) = none := rfl
  rw [hnone] at h
  cases h

lemma pySplit_ne_nil (sep : Char) (l : List Char) : pySplit sep l ≠ [] := by
  cases l with
  | nil => simp [pySplit]
  | cons c r =>
    simp only [pySplit]
    split
    · simp
    · split <;> simp

lemma pySplit_of_not_mem {sep : Char} {l : List Char} (h : sep ∉ l) : pySplit sep l = [l] := by
  induction l with
  | nil => rfl
  | cons c r ih =>
    simp only [List.mem_cons, not_or] at h
    simp only [pySplit]
    rw [if_neg (fun e : c = sep => h.1 e.symm)]
    rw [ih h.2]

lemma pySplit_append {sep : Char} {a : List Char} (h : sep ∉ a) (r : List Char) :
    pySplit sep (a ++ sep :: r) = a :: pySplit sep r := by
  induction a with
  | nil => simp [pySplit]
  | cons c a' ih =>
    simp only [List.mem_cons, not_or] at h
    simp only [List.cons_append, pySplit, List.append_eq]
    rw [if_neg (fun e : c = sep => h.1 e.symm)]
    rw [ih h.2]

lemma getLast?_ne_of_not_mem {l : List Char} {x : Char} (h : x ∉ l) :
    l.getLast? ≠ some x := by
  intro he
  cases l with
  | nil => cases he
  | cons a r =>
    rw [List.getLast?_eq_getLast_of_ne_nil (List.cons_ne_nil a r)] at he
    exact h (Option.some.inj he ▸ List.getLast_mem (List.cons_ne_nil a r))

lemma not_mem_of_floatChars {l : List Char} {x : Char}
    (hl : ∀ c ∈ l, floatChar c = true) (hx : floatChar x = false) : x ∉ l := by
  intro hmem
  rw [hl x hmem] at hx
  cases hx

lemma joinSep_cons_cons (sep : Char) (c : Char) (p : List Char) (ps : List (List Char)) :
    joinSep sep ((c :: p) :: ps) = c :: joinSep sep (p :: ps) := by
  cases ps <;> rfl

lemma joinSep_pySplit (sep : Char) (l : List Char) : joinSep sep (pySplit sep l) = l := by
  induction l with
  | nil => rfl
  | cons c r ih =>
    simp only [pySplit]
    by_cases hc : c = sep
    · rw [if_pos hc]
      obtain ⟨p, ps, hps⟩ := List.exists_cons_of_ne_nil (pySplit_ne_nil sep r)
      rw [hps]
      rw [hps] at ih
      subst hc
      show c :: joinSep c (p :: ps) = c :: r
      exact congrArg (c :: ·) ih
    · rw [if_neg hc]
      obtain ⟨p, ps, hps⟩ := List.exists_cons_of_ne_nil (pySplit_ne_nil sep r)
      rw [hps]
      rw [hps] at ih
      rw [joinSep_cons_cons]
      exact congrArg (c :: ·) ih

lemma dropLit_sound : ∀ (p l r : List Char), dropLit p l = some r → l = p ++ r := by
  intro p
  induction p with
  | nil => intro l r h; exact Option.some.inj h ▸ rfl
  | cons pc ps ih =>
    intro l r h
    cases l with
    | nil => cases h
    | cons c cs =>
      rw [dropLit] at h
      by_cases hc : c = pc
      · rw [if_pos hc] at h
        rw [List.cons_append, ← ih cs r h, hc]
      · rw [if_neg hc] at h
        cases h

lemma dropLit_complete : ∀ (p r : List Char), dropLit p (p ++ r) = some r := by
  intro p
  induction p with
  | nil => intro r; rfl
  | cons pc ps ih =>
    intro r
    rw [List.cons_append, dropLit, if_pos rfl]
    exact ih r

lemma dropLit_head_ne {pc c : Char} (ps cs : List Char) (h : c ≠ pc) :
    dropLit (pc :: ps) (c :: cs) = none := by
  rw [dropLit, if_neg h]

lemma takeId_sound : ∀ (n : Nat) (l i r : List Char), takeId n l = some (i, r) →
    l = i ++ r ∧ i.length = n ∧ ∀ c ∈ i, validChar c = true := by
  intro n
  induction n with
  | zero =>
    intro l i r h
    rw [takeId] at h
    obtain ⟨h1, h2⟩ := Prod.mk.injEq .. ▸ Option.some.inj h
    subst h1; subst h2
    exact ⟨rfl, rfl, by simp⟩
  | succ m ih =>
    intro l i r h
    cases l with
    | nil => cases h
    | cons c cs =>
      rw [takeId] at h
      by_cases hc : validChar c = true
      · rw [if_pos hc] at h
        cases hti : takeId m cs with
        | none => rw [hti] at h; cases h
        | some p =>
          rw [hti] at h
          obtain ⟨i0, r0⟩ := p
          simp only [Option.map_some'] at h
          obtain ⟨h1, h2⟩ := Prod.mk.injEq .. ▸ Option.some.inj h
          obtain ⟨hsplit, hlen, hval⟩ := ih cs i0 r0 hti
          subst h1; subst h2
          refine ⟨by rw [List.cons_append, hsplit], by simp [hlen], ?_⟩
          intro x hx
          rcases List.mem_cons.mp hx with rfl | hx'
          · exact hc
          · exact hval x hx'
      · rw [if_neg hc] at h
        cases h

lemma takeId_complete : ∀ (i r : List Char), (∀ c ∈ i, validChar c = true) →
    takeId i.length (i ++ r) = some (i, r) := by
  intro i
  induction i with
  | nil => intro r _; rfl
  | cons c cs ih =>
    intro r hv
    rw [List.cons_append, List.length_cons, takeId,
      if_pos (hv c (List.mem_cons_self c cs)), ih r (fun x hx => hv x (List.mem_cons_of_mem c hx))]
    rfl

lemma dropOpt_cases (vs : List (List Char)) (l : List Char) :
    dropOpt vs l = l ∨ ∃ v ∈ vs, l = v ++ dropOpt vs l := by
  induction vs with
  | nil => left; rfl
  | cons v vs ih =>
    cases hd : dropLit v l with
    | some r =>
      right
      refine ⟨v, List.mem_cons_self v vs, ?_⟩
      rw [dropOpt, hd, Option.getD_some]
      exact dropLit_sound v l r hd
    | none =>
      rw [dropOpt, hd, Option.getD_none]
      rcases ih with h | ⟨v', hv', he'⟩
      · left; exact h
      · right; exact ⟨v', List.mem_cons_of_mem v hv', he'⟩

lemma dropLit_of_head_ne (p l : List Char) (hp : p ≠ [])
    (h : ∀ c c', p.head? = some c → l.head? = some c' → c' ≠ c) :
    dropLit p l = none := by
  cases p with
  | nil => exact absurd rfl hp
  | cons pc ps =>
    cases l with
    | nil => rfl
    | cons c cs => exact dropLit_head_ne ps cs (h pc c rfl rfl)

lemma dropOpt_scheme (sch rest : List Char) (hsch : schemeOK sch)
    (hrest : rest.head? = some 'w' ∨ rest.head? = some 'y') :
    dropOpt schemeVariants (sch ++ rest) = rest := by
  have hne : ∀ c c' : Char, (some 'h' : Option Char) = some c →
      rest.head? = some c' → c' ≠ c := by
    intro c c' hc hc' heq
    rcases hrest with hr | hr <;> rw [hr] at hc' <;>
      rw [← Option.some.inj hc, ← Option.some.inj hc'] at heq <;> cases heq
  rcases hsch with rfl | rfl | rfl
  · rw [List.nil_append]
    have h1 : dropLit "https://".data rest = none :=
      dropLit_of_head_ne _ _ (by decide) hne
    have h2 : dropLit "http://".data rest = none :=
      dropLit_of_head_ne _ _ (by decide) hne
    rw [schemeVariants, dropOpt, h1, Option.getD_none, dropOpt, h2, Option.getD_none, dropOpt]
  · have h1 : dropLit "https://".data ("http://".data ++ rest) = none := rfl
    rw [schemeVariants, dropOpt, h1, Option.getD_none, dropOpt, dropLit_complete,
      Option.getD_some]
  · rw [schemeVariants, dropOpt, dropLit_complete, Option.getD_some]

lemma dropOpt_www (w rest : List Char) (hw : wwwOK w)
    (hrest : rest.head? = some 'y') :
    dropOpt wwwVariants (w ++ rest) = rest := by
  rcases hw with rfl | rfl
  · rw [List.nil_append]
    have h1 : dropLit "www.".data rest = none := by
      apply dropLit_of_head_ne _ _ (by decide)
      intro c c' hc hc' heq
      rw [hrest] at hc'
      rw [← Option.some.inj hc, ← Option.some.inj hc'] at heq
      cases heq
    rw [wwwVariants, dropOpt, h1, Option.getD_none, dropOpt]
  · rw [wwwVariants, dropOpt, dropLit_complete, Option.getD_some]

lemma matchPat_complete (lit sch w id rest : List Char)
    (hlit : lit.head? = some 'y') (hsch : schemeOK sch) (hw : wwwOK w)
    (hid : validId id) :
    matchPat lit (sch ++ (w ++ (lit ++ (id ++ rest)))) = some id := by
  have hlift : (lit ++ (id ++ rest)).head? = some 'y' := by
    cases lit with
    | nil => cases hlit
    | cons c cs => rw [List.cons_append]; exact hlit
  have h1 : dropOpt schemeVariants (sch ++ (w ++ (lit ++ (id ++ rest)))) =
      w ++ (lit ++ (id ++ rest)) := by
    apply dropOpt_scheme _ _ hsch
    rcases hw with rfl | rfl
    · right; rw [List.nil_append]; exact hlift
    · left; rfl
  have h2 : dropOpt wwwVariants (w ++ (lit ++ (id ++ rest))) = lit ++ (id ++ rest) :=
    dropOpt_www _ _ hw hlift
  unfold matchPat
  rw [h1, h2, dropLit_complete]
  show Option.map Prod.fst (takeId 11 (id ++ rest)) = some id
  rw [← hid.1, takeId_complete id rest hid.2]
  rfl

lemma matchPat_sound (lit l id : List Char) (h : matchPat lit l = some id) :
    ∃ sch w rest, schemeOK sch ∧ wwwOK w ∧ validId id ∧
      l = sch ++ (w ++ (lit ++ (id ++ rest))) := by
  unfold matchPat at h
  cases hd : dropLit lit (dropOpt wwwVariants (dropOpt schemeVariants l)) with
  | none => rw [hd] at h; cases h
  | some r =>
    rw [hd] at h
    have h' : Option.map Prod.fst (takeId 11 r) = some id := h
    cases ht : takeId 11 r with
    | none => rw [ht] at h'; cases h'
    | some p =>
      rw [ht] at h'
      obtain ⟨i, rest⟩ := p
      simp only [Option.map_some'] at h'
      have hi : i = id := Option.some.inj h'
      subst hi
      obtain ⟨hsplit, hlen, hval⟩ := takeId_sound 11 r i rest ht
      have hB : dropOpt wwwVariants (dropOpt schemeVariants l) = lit ++ r :=
        dropLit_sound lit _ r hd
      have hsch := dropOpt_cases schemeVariants l
      have hw := dropOpt_cases wwwVariants (dropOpt schemeVariants l)
      rcases hsch with hA | ⟨v, hv, hA⟩
      · rcases hw with hW | ⟨v', hv', hW⟩
        · refine ⟨[], [], rest, Or.inl rfl, Or.inl rfl, ⟨hlen, hval⟩, ?_⟩
          rw [List.nil_append, List.nil_append]
          calc l = dropOpt schemeVariants l := hA.symm
            _ = dropOpt wwwVariants (dropOpt schemeVariants l) := hW.symm
            _ = lit ++ r := hB
            _ = lit ++ (i ++ rest) := by rw [hsplit]
        · have hv'2 : v' = "www.".data := by
            rcases List.mem_cons.mp hv' with h1 | h1
            · exact h1
            · cases h1
          subst hv'2
          refine ⟨[], "www.".data, rest, Or.inl rfl, Or.inr rfl, ⟨hlen, hval⟩, ?_⟩
          rw [List.nil_append]
          calc l = dropOpt schemeVariants l := hA.symm
            _ = "www.".data ++ dropOpt wwwVariants (dropOpt schemeVariants l) := hW
            _ = "www.".data ++ (lit ++ (i ++ rest)) := by rw [hB, hsplit]
      · have hschOK : schemeOK v := by
          rcases List.mem_cons.mp hv with h1 | h1
          · right; right; exact h1
          · rcases List.mem_cons.mp h1 with h2 | h2
            · right; left; exact h2
            · cases h2
        rcases hw with hW | ⟨v', hv', hW⟩
        · refine ⟨v, [], rest, hschOK, Or.inl rfl, ⟨hlen, hval⟩, ?_⟩
          rw [List.nil_append]
          calc l = v ++ dropOpt schemeVariants l := hA
            _ = v ++ dropOpt wwwVariants (dropOpt schemeVariants l) := by rw [hW]
            _ = v ++ (lit ++ (i ++ rest)) := by rw [hB, hsplit]
        · have hv'2 : v' = "www.".data := by
            rcases List.mem_cons.mp hv' with h1 | h1
            · exact h1
            · cases h1
          subst hv'2
          refine ⟨v, "www.".data, rest, hschOK, Or.inr rfl, ⟨hlen, hval⟩, ?_⟩
          calc l = v ++ dropOpt schemeVariants l := hA
            _ = v ++ ("www.".data ++ dropOpt wwwVariants (dropOpt schemeVariants l)) := by
                rw [← hW]
            _ = v ++ ("www.".data ++ (lit ++ (i ++ rest))) := by rw [hB, hsplit]

lemma searchPat_sound (lit : List Char) : ∀ l id, searchPat lit l = some id →
    ∃ pre suf, l = pre ++ suf ∧ matchPat lit suf = some id := by
  intro l
  induction l with
  | nil => intro id h; cases h
  | cons c rest ih =>
    intro id h
    rw [searchPat] at h
    cases hm : matchPat lit (c :: rest) with
    | some x =>
      rw [hm] at h
      refine ⟨[], c :: rest, rfl, ?_⟩
      rw [hm]
      exact h
    | none =>
      rw [hm] at h
      obtain ⟨pre, suf, heq, hmp⟩ := ih id h
      exact ⟨c :: pre, suf, by rw [List.cons_append, heq], hmp⟩

lemma matchPat_nil (lit : List Char) (hlit : lit ≠ []) : matchPat lit [] = none := by
  cases lit with
  | nil => exact absurd rfl hlit
  | cons c cs => rfl

lemma searchPat_succeeds (lit : List Char) (hlit : lit ≠ []) :
    ∀ pre suf id, matchPat lit suf = some id →
    ∃ r, searchPat lit (pre ++ suf) = some r := by
  intro pre
  induction pre with
  | nil =>
    intro suf id h
    cases suf with
    | nil => rw [matchPat_nil lit hlit] at h; cases h
    | cons c cs =>
      rw [List.nil_append, searchPat]
      exact ⟨id, by rw [h]⟩
  | cons p ps ih =>
    intro suf id h
    rw [List.cons_append, searchPat]
    cases hm : matchPat lit (p :: (ps ++ suf)) with
    | some x => exact ⟨x, rfl⟩
    | none =>
      obtain ⟨r, hr⟩ := ih suf id h
      exact ⟨r, hr⟩

lemma searchPat_of_hasShapeWith {lit l id : List Char}
    (hlity : lit.head? = some 'y') (hsh : hasShapeWith lit l id) :
    ∃ r, searchPat lit l = some r := by
  obtain ⟨pre, sch, w, rest, hs, hw, hid, heq⟩ := hsh
  have hm := matchPat_complete lit sch w id rest hlity hs hw hid
  rw [heq]
  exact searchPat_succeeds lit
    (by intro e; rw [e] at hlity; cases hlity) pre _ id hm

lemma hasShapeWith_of_searchPat {lit l r : List Char}
    (h : searchPat lit l = some r) : hasShapeWith lit l r := by
  obtain ⟨pre, suf, heq, hm⟩ := searchPat_sound lit l r h
  obtain ⟨sch, w, rest, hs, hw, hid, heq2⟩ := matchPat_sound lit suf r hm
  exact ⟨pre, sch, w, rest, hs, hw, hid, by rw [heq, heq2]⟩

/-- C4: `time_to_seconds` parses a string ending in `s` as the float value
of its prefix, a three-part colon string `H:M:S` as
`H * 3600 + M * 60 + S`, and a two-part colon string `M:S` as
`M * 60 + S` (parts given as parseable float literals). -/
theorem time_to_seconds_formats :
    (∀ s : String, time_to_seconds s = ttsList s.data) ∧
    (∀ t q, parseFloat t = some q → ttsList (t ++ ['s']) = q) ∧
    (∀ a b c qa qb qc, parseFloat a = some qa → parseFloat b = some qb →
      parseFloat c = some qc →
      ttsList (a ++ ':' :: (b ++ ':' :: c)) = qa * 3600 + qb * 60 + qc) ∧
    (∀ a b qa qb, parseFloat a = some qa → parseFloat b = some qb →
      ttsList (a ++ ':' :: b) = qa * 60 + qb) := by
  refine ⟨fun s => rfl, ?_, ?_, ?_⟩
  · intro t q h
    unfold ttsList
    rw [if_neg (by simp : ¬(t ++ ['s'] = []))]
    rw [List.getLast?_concat, if_pos rfl, List.dropLast_concat, h]
    rfl
  · intro a b c qa qb qc ha hb hc
    have hca := parseFloat_floatChar ha
    have hcb := parseFloat_floatChar hb
    have hcc := parseFloat_floatChar hc
    have hnca : (':' : Char) ∉ a := not_mem_of_floatChars hca (by decide)
    have hncb : (':' : Char) ∉ b := not_mem_of_floatChars hcb (by decide)
    have hncc : (':' : Char) ∉ c := not_mem_of_floatChars hcc (by decide)
    have hsa : ('s' : Char) ∉ a := not_mem_of_floatChars hca (by decide)
    have hsb : ('s' : Char) ∉ b := not_mem_of_floatChars hcb (by decide)
    have hsc : ('s' : Char) ∉ c := not_mem_of_floatChars hcc (by decide)
    set l := a ++ ':' :: (b ++ ':' :: c) with hl
    have h1 : l ≠ [] := by simp [hl]
    have h2 : l.getLast? ≠ some 's' := by
      apply getLast?_ne_of_not_mem
      simp only [hl, List.mem_append, List.mem_cons, not_or]
      exact ⟨hsa, by decide, hsb, by decide, hsc⟩
    have h3 : l.contains ':' = true := by
      apply List.elem_eq_true_of_mem
      simp [hl]
    have h4 : pySplit ':' l = [a, b, c] := by
      rw [hl, pySplit_append hnca, pySplit_append hncb, pySplit_of_not_mem hncc]
    unfold ttsList
    rw [if_neg h1, if_neg h2, if_pos h3, h4]
    show tts3 a b c = qa * 3600 + qb * 60 + qc
    unfold tts3
    rw [ha, hb, hc]
  · intro a b qa qb ha hb
    have hca := parseFloat_floatChar ha
    have hcb := parseFloat_floatChar hb
    have hnca : (':' : Char) ∉ a := not_mem_of_floatChars hca (by decide)
    have hncb : (':' : Char) ∉ b := not_mem_of_floatChars hcb (by decide)
    have hsa : ('s' : Char) ∉ a := not_mem_of_floatChars hca (by decide)
    have hsb : ('s' : Char) ∉ b := not_mem_of_floatChars hcb (by decide)
    set l := a ++ ':' :: b with hl
    have h1 : l ≠ [] := by simp [hl]
    have h2 : l.getLast? ≠ some 's' := by
      apply getLast?_ne_of_not_mem
      simp only [hl, List.mem_append, List.mem_cons, not_or]
      exact ⟨hsa, by decide, hsb⟩
    have h3 : l.contains ':' = true := by
      apply List.elem_eq_true_of_mem
      simp [hl]
    have h4 : pySplit ':' l = [a, b] := by
      rw [hl, pySplit_append hnca, pySplit_of_not_mem hncb]
    unfold ttsList
    rw [if_neg h1, if_neg h2, if_pos h3, h4]
    show tts2 a b = qa * 60 + qb
    unfold tts2
    rw [ha, hb]

/-- Witness for C4 at the inputs `2s`, `1:2:3` and `4:5`. -/
theorem time_to_seconds_formats_witness :
    ttsList ("2".data ++ ['s']) = 2 ∧
    ttsList ("1".data ++ ':' :: ("2".data ++ ':' :: "3".data)) = 1 * 3600 + 2 * 60 + 3 ∧
    ttsList ("4".data ++ ':' :: "5".data) = 4 * 60 + 5 := by
  have h1 : parseFloat "1".data = some 1 := by
    have e : parseFloat "1".data = some ((1 : ℚ) * (digitsVal ['1'] : ℚ)) := rfl
    rw [e, show digitsVal ['1'] = 1 from by decide]
    norm_num
  have h2 : parseFloat "2".data = some 2 := by
    have e : parseFloat "2".data = some ((1 : ℚ) * (digitsVal ['2'] : ℚ)) := rfl
    rw [e, show digitsVal ['2'] = 2 from by decide]
    norm_num
  have h3 : parseFloat "3".data = some 3 := by
    have e : parseFloat "3".data = some ((1 : ℚ) * (digitsVal ['3'] : ℚ)) := rfl
    rw [e, show digitsVal ['3'] = 3 from by decide]
    norm_num
  have h4 : parseFloat "4".data = some 4 := by
    have e : parseFloat "4".data = some ((1 : ℚ) * (digitsVal ['4'] : ℚ)) := rfl
    rw [e, show digitsVal ['4'] = 4 from by decide]
    norm_num
  have h5 : parseFloat "5".data = some 5 := by
    have e : parseFloat "5".data = some ((1 : ℚ) * (digitsVal ['5'] : ℚ)) := rfl
    rw [e, show digitsVal ['5'] = 5 from by decide]
    norm_num
  exact ⟨time_to_seconds_formats.2.1 "2".data 2 h2,
    time_to_seconds_formats.2.2.1 "1".data "2".data "3".data 1 2 3 h1 h2 h3,
    time_to_seconds_formats.2.2.2 "4".data "5".data 4 5 h4 h5⟩

/-- C9: `time_to_seconds` is a total function; it returns 0 on the empty
string and on every input no branch of which parses (wrong part counts,
non-numeric parts). -/
theorem time_to_seconds_total :
    (∀ s : String, time_to_seconds s = ttsList s.data) ∧
    ttsList [] = 0 ∧
    (∀ l : List Char, ¬ timeParseable l → ttsList l = 0) := by
  refine ⟨fun s => rfl, rfl, ?_⟩
  intro l hnp
  unfold ttsList
  by_cases h0 : l = []
  · rw [if_pos h0]
  · rw [if_neg h0]
    by_cases hs : l.getLast? = some 's'
    · rw [if_pos hs]
      cases hpf : parseFloat l.dropLast with
      | none => rfl
      | some q =>
        exact absurd (Or.inl ⟨l.dropLast,
          (List.dropLast_append_getLast? 's' (by rw [Option.mem_def]; exact hs)).symm,
          Or.inl ⟨q, hpf⟩⟩) hnp
    · rw [if_neg hs]
      by_cases hcol : l.contains ':'
      · rw [if_pos hcol]
        rcases hps : pySplit ':' l with _ | ⟨p1, tail1⟩
        · exact absurd hps (pySplit_ne_nil ':' l)
        rcases tail1 with _ | ⟨p2, tail2⟩
        · show (parseFloat l).getD 0 = 0
          cases hq : parseFloat l with
          | none => rfl
          | some q => exact absurd (Or.inr (Or.inr (Or.inr (Or.inl ⟨q, hq⟩)))) hnp
        rcases tail2 with _ | ⟨p3, tail3⟩
        · show tts2 p1 p2 = 0
          have hrec : l = p1 ++ ':' :: p2 := by
            have hj := joinSep_pySplit ':' l
            rw [hps] at hj
            exact hj.symm
          unfold tts2
          cases hq1 : parseFloat p1 with
          | none => rfl
          | some q1 =>
            cases hq2 : parseFloat p2 with
            | none => rfl
            | some q2 =>
              exact absurd (Or.inr (Or.inr (Or.inl ⟨p1, p2, hrec,
                Or.inl ⟨q1, hq1⟩, Or.inl ⟨q2, hq2⟩⟩))) hnp
        rcases tail3 with _ | ⟨p4, tail4⟩
        · show tts3 p1 p2 p3 = 0
          have hrec : l = p1 ++ ':' :: (p2 ++ ':' :: p3) := by
            have hj := joinSep_pySplit ':' l
            rw [hps] at hj
            exact hj.symm
          unfold tts3
          cases hq1 : parseFloat p1 with
          | none => rfl
          | some q1 =>
            cases hq2 : parseFloat p2 with
            | none => rfl
            | some q2 =>
              cases hq3 : parseFloat p3 with
              | none => rfl
              | some q3 =>
                exact absurd (Or.inr (Or.inl ⟨p1, p2, p3, hrec,
                  Or.inl ⟨q1, hq1⟩, Or.inl ⟨q2, hq2⟩, Or.inl ⟨q3, hq3⟩⟩)) hnp
        · show (parseFloat l).getD 0 = 0
          cases hq : parseFloat l with
          | none => rfl
          | some q => exact absurd (Or.inr (Or.inr (Or.inr (Or.inl ⟨q, hq⟩)))) hnp
      · rw [if_neg hcol]
        cases hq : parseFloat l with
        | none => rfl
        | some q => exact absurd (Or.inr (Or.inr (Or.inr (Or.inl ⟨q, hq⟩)))) hnp

/-- Witness for C9 at the unparseable input `abc`. -/
theorem time_to_seconds_total_witness : ttsList "abc".data = 0 := by
  apply time_to_seconds_total.2.2
  intro h
  have hnfok : ¬ pyFloatOK "abc".data := by
    intro hok
    rcases hok with ⟨q, hp⟩ | hsp | ⟨c, hc, hgt⟩
    · have hn : parseFloat "abc".data = none := rfl
      rw [hn] at hp
      cases hp
    · exact absurd hsp (by decide)
    · have hascii : ∀ c ∈ "abc".data, ¬ 127 < c.toNat := by decide
      exact hascii c hc hgt
  rcases h with ⟨t, heq, hok⟩ | ⟨a, b, c, heq, _, _, _⟩ |
    ⟨a, b, heq, _, _⟩ | hok
  · have hg := congrArg List.getLast? heq
    rw [List.getLast?_concat] at hg
    exact absurd hg (by decide)
  · have hm : (':' : Char) ∈ "abc".data := by rw [heq]; simp
    exact absurd hm (by decide)
  · have hm : (':' : Char) ∈ "abc".data := by rw [heq]; simp
    exact absurd hm (by decide)
  · exact hnfok hok

/-- C1: language selection in `get_subtitles` prefers manual subtitles
over automatic captions (automatic only when the manual set is empty), and
within the chosen list selects the first language of the fixed priority
list `[en, en-US, en-GB, es]` that is present, falling back to the first
available language. -/
theorem language_selection :
    (∀ manual auto : List String, manual ≠ [] →
      chooseSource manual auto = "manual" ∧ chooseLangs manual auto = manual) ∧
    (∀ manual auto : List String, manual = [] → auto ≠ [] →
      chooseSource manual auto = "automatic" ∧ chooseLangs manual auto = auto) ∧
    (∀ langs : List String, langs ≠ [] → ∃ l, selectLanguage langs = some l) ∧
    (∀ langs l, selectLanguage langs = some l → chosenLang langs l) := by
  refine ⟨?_, ?_, ?_, ?_⟩
  · intro manual auto h
    constructor
    · unfold chooseSource
      rw [if_pos (by simpa [List.isEmpty_iff] using h)]
    · unfold chooseLangs
      rw [if_pos (by simpa [List.isEmpty_iff] using h)]
  · intro manual auto hm ha
    subst hm
    constructor
    · unfold chooseSource
      rw [if_neg (by simp), if_pos (by simpa [List.isEmpty_iff] using ha)]
    · unfold chooseLangs
      rw [if_neg (by simp), if_pos (by simpa [List.isEmpty_iff] using ha)]
  · intro langs h
    unfold selectLanguage
    cases hf : lang_priority.find? (fun l => langs.contains l) with
    | some x => exact ⟨x, rfl⟩
    | none =>
      obtain ⟨c, r, rfl⟩ := List.exists_cons_of_ne_nil h
      exact ⟨c, rfl⟩
  · intro langs l h
    unfold selectLanguage at h
    cases hf : lang_priority.find? (fun l => langs.contains l) with
    | some x =>
      rw [hf] at h
      have hx : x = l := Option.some.inj h
      subst hx
      obtain ⟨hp, i, hi, hget, hbefore⟩ := List.find?_eq_some_iff_getElem.mp hf
      left
      refine ⟨i, hi, hget, List.mem_of_elem_eq_true hp, ?_⟩
      intro j hj hji
      have hb := hbefore j hji
      simp only [Bool.not_eq_true'] at hb
      intro hmem
      unfold List.contains at hb
      rw [List.elem_eq_true_of_mem hmem] at hb
      cases hb
    | none =>
      rw [hf] at h
      right
      refine ⟨?_, h⟩
      intro p hp hmem
      have := List.find?_eq_none.mp hf p hp
      exact this (List.elem_eq_true_of_mem hmem)

/-- Witness for C1: manual preferred, automatic fallback, and selection
of `es` over the head `de`. -/
theorem language_selection_witness :
    (chooseSource ["fr"] [] = "manual" ∧ chooseLangs ["fr"] [] = ["fr"]) ∧
    (chooseSource [] ["en-GB", "de"] = "automatic" ∧ chooseLangs [] ["en-GB", "de"] = ["en-GB", "de"]) ∧
    (∃ l, selectLanguage ["de", "fr"] = some l) ∧
    chosenLang ["de", "es"] "es" := by
  refine ⟨language_selection.1 ["fr"] [] (by decide),
    language_selection.2.1 [] ["en-GB", "de"] rfl (by decide),
    language_selection.2.2.1 ["de", "fr"] (by decide),
    language_selection.2.2.2 ["de", "es"] "es" ?_⟩
  decide

lemma bareRegexMatch_iff (l : List Char) : bareRegexMatch l = true ↔ bareOK l := by
  unfold bareRegexMatch
  rw [Bool.or_eq_true, Bool.and_eq_true, Bool.and_eq_true, Bool.and_eq_true]
  constructor
  · intro h
    rcases h with ⟨hl, ha⟩ | ⟨⟨hlen, hlast⟩, hall⟩
    · exact Or.inl ⟨beq_iff_eq.mp hl, List.all_eq_true.mp ha⟩
    · have hlen2 : l.length = 12 := beq_iff_eq.mp hlen
      have hlast2 : l.getLast? = some (Char.ofNat 10) := beq_iff_eq.mp hlast
      refine Or.inr ⟨l.dropLast, ?_, ?_, List.all_eq_true.mp hall⟩
      · exact (List.dropLast_append_getLast? (Char.ofNat 10)
          (by rw [Option.mem_def]; exact hlast2)).symm
      · rw [List.length_dropLast, hlen2]
  · intro h
    rcases h with ⟨hlen, hval⟩ | ⟨v, heq, hv⟩
    · exact Or.inl ⟨beq_iff_eq.mpr hlen, List.all_eq_true.mpr hval⟩
    · refine Or.inr ⟨⟨?_, ?_⟩, ?_⟩
      · apply beq_iff_eq.mpr
        rw [heq, List.length_append, hv.1]
        rfl
      · apply beq_iff_eq.mpr
        rw [heq, List.getLast?_concat]
      · apply List.all_eq_true.mpr
        rw [heq, List.dropLast_concat]
        exact hv.2

lemma hasShape_length {lit l : List Char} (h : hasShape lit l) :
    lit.length + 11 ≤ l.length := by
  obtain ⟨id, pre, sch, w, rest, hs, hw, hid, heq⟩ := h
  have hc := congrArg List.length heq
  simp only [List.length_append] at hc
  rw [hid.1] at hc
  omega

lemma not_containsShape_of_short {l : List Char} (h : l.length < 20) :
    ¬ containsShape l := by
  intro hc
  rcases hc with hs | hs | hs
  · have h1 := hasShape_length hs
    have h2 : watchLit.length = 20 := by decide
    omega
  · have h1 := hasShape_length hs
    have h2 : beLit.length = 9 := by decide
    omega
  · have h1 := hasShape_length hs
    have h2 : embedLit.length = 18 := by decide
    omega

/-- C2 (amended): `extract_video_id` returns an id exactly when the input
contains one of the three URL shapes (whose capture that id then is) or
matches the bare-id pattern, which accepts an 11-character id optionally
followed by a single trailing newline (the whole input, newline included,
is then returned); every other string returns `none`. -/
theorem extract_video_id_correct (url : String) :
    (containsShape url.data ∨ bareOK url.data →
      ∃ r, extract_video_id url = some r ∧ capturedId url.data r.data) ∧
    (¬ containsShape url.data → ¬ bareOK url.data →
      extract_video_id url = none) := by
  constructor
  · intro hpos
    unfold extract_video_id
    cases s1 : searchPat watchLit url.data with
    | some id =>
      exact ⟨String.mk id, rfl, Or.inl (hasShapeWith_of_searchPat s1)⟩
    | none =>
      cases s2 : searchPat beLit url.data with
      | some id =>
        exact ⟨String.mk id, rfl, Or.inr (Or.inl (hasShapeWith_of_searchPat s2))⟩
      | none =>
        cases s3 : searchPat embedLit url.data with
        | some id =>
          exact ⟨String.mk id, rfl, Or.inr (Or.inr (Or.inl (hasShapeWith_of_searchPat s3)))⟩
        | none =>
          have hnc : ¬ containsShape url.data := by
            intro hc
            rcases hc with ⟨id, hsh⟩ | ⟨id, hsh⟩ | ⟨id, hsh⟩
            · obtain ⟨r, hr⟩ :=
                searchPat_of_hasShapeWith (show watchLit.head? = some 'y' from rfl) hsh
              rw [s1] at hr; cases hr
            · obtain ⟨r, hr⟩ :=
                searchPat_of_hasShapeWith (show beLit.head? = some 'y' from rfl) hsh
              rw [s2] at hr; cases hr
            · obtain ⟨r, hr⟩ :=
                searchPat_of_hasShapeWith (show embedLit.head? = some 'y' from rfl) hsh
              rw [s3] at hr; cases hr
          rcases hpos with hc | hbare
          · exact absurd hc hnc
          · refine ⟨url, ?_, Or.inr (Or.inr (Or.inr ⟨rfl, hbare⟩))⟩
            rw [if_pos ((bareRegexMatch_iff url.data).mpr hbare)]
  · intro hnc hnb
    unfold extract_video_id
    cases s1 : searchPat watchLit url.data with
    | some id => exact absurd (Or.inl ⟨id, hasShapeWith_of_searchPat s1⟩) hnc
    | none =>
      cases s2 : searchPat beLit url.data with
      | some id => exact absurd (Or.inr (Or.inl ⟨id, hasShapeWith_of_searchPat s2⟩)) hnc
      | none =>
        cases s3 : searchPat embedLit url.data with
        | some id =>
          exact absurd (Or.inr (Or.inr ⟨id, hasShapeWith_of_searchPat s3⟩)) hnc
        | none =>
          rw [if_neg (fun hb => hnb ((bareRegexMatch_iff url.data).mp hb))]

/-- C2 counterexample to the original claim: the input consisting of a
bare id and a trailing newline contains no URL shape and is not exactly a
bare 11-character id, yet `extract_video_id` returns the whole input
(the dollar anchor of the Python pattern matches before a single final
newline), not `None`. -/
theorem extract_video_id_newline_counterexample :
    ¬ containsShape ("dQw4w9WgXcQ" ++ "\n").data ∧
    ¬ validId ("dQw4w9WgXcQ" ++ "\n").data ∧
    extract_video_id ("dQw4w9WgXcQ" ++ "\n") = some ("dQw4w9WgXcQ" ++ "\n") := by
  refine ⟨not_containsShape_of_short (by decide), ?_, rfl⟩
  intro hv
  exact absurd hv.1 (by decide)

/-- Witness for C2: a bare id and a bare id with trailing newline are
accepted, and a malformed string is rejected. -/
theorem extract_video_id_correct_witness :
    (∃ r, extract_video_id "dQw4w9WgXcQ" = some r ∧
      capturedId "dQw4w9WgXcQ".data r.data) ∧
    (∃ r, extract_video_id ("dQw4w9WgXcQ" ++ "\n") = some r ∧
      capturedId ("dQw4w9WgXcQ" ++ "\n").data r.data) ∧
    extract_video_id "hello" = none := by
  refine ⟨?_, ?_, ?_⟩
  · exact (extract_video_id_correct "dQw4w9WgXcQ").1
      (Or.inr (Or.inl ⟨by decide, by decide⟩))
  · exact (extract_video_id_correct ("dQw4w9WgXcQ" ++ "\n")).1
      (Or.inr (Or.inr ⟨"dQw4w9WgXcQ".data, by decide, by decide, by decide⟩))
  · apply (extract_video_id_correct "hello").2
    · exact not_containsShape_of_short (by decide)
    · intro hb
      rcases hb with hv | ⟨v, heq, hv⟩
      · exact absurd hv.1 (by decide)
      · have hg := congrArg List.length heq
        rw [List.length_append, hv.1] at hg
        exact absurd hg (by decide)

/-- C5: every segment produced by `parse_ttml_subtitles` has
`duration = end - start` and text equal to the stripped concatenated text
content of its `p` element. -/
theorem parse_ttml_segments (inp : Except String XNode) :
    ∀ seg ∈ parse_ttml_subtitles inp,
      seg.duration = seg.stop - seg.start ∧
      ∃ root p, inp = .ok root ∧ p ∈ pElems root ∧
        seg.text = String.mk (pyStrip (itertextN p)) := by
  intro seg hmem
  cases inp with
  | error e => cases hmem
  | ok root =>
    obtain ⟨p, hp, hmk⟩ := List.mem_filterMap.mp hmem
    cases p with
    | text s => cases hmk
    | elem ns tag attrs cs =>
      rw [mkSegment] at hmk
      by_cases ht : pyStrip (itertextL cs) = []
      · rw [if_pos ht] at hmk
        cases hmk
      · rw [if_neg ht] at hmk
        have hseg := Option.some.inj hmk
        subst hseg
        exact ⟨rfl, root, .elem ns tag attrs cs, rfl, hp, rfl⟩

/-- Witness for C5 at a one-segment TTML document. -/
theorem parse_ttml_segments_witness :
    sampleSeg.duration = sampleSeg.stop - sampleSeg.start ∧
    ∃ root p, (.ok sampleRoot : Except String XNode) = .ok root ∧ p ∈ pElems root ∧
      sampleSeg.text = String.mk (pyStrip (itertextN p)) :=
  parse_ttml_segments (.ok sampleRoot) sampleSeg
    (show sampleSeg ∈ [sampleSeg] from List.mem_singleton.mpr rfl)

/-- C10: `parse_ttml_subtitles` only emits segments with non-empty text,
whitespace-only `p` elements produce no segment, and malformed XML yields
the empty list instead of raising. -/
theorem parse_ttml_invariants :
    (∀ inp, ∀ seg ∈ parse_ttml_subtitles inp, seg.text ≠ "") ∧
    (∀ e : String, parse_ttml_subtitles (.error e) = []) ∧
    (∀ root p, p ∈ pElems root → pyStrip (itertextN p) = [] → mkSegment p = none) := by
  refine ⟨?_, fun e => rfl, ?_⟩
  · intro inp seg hmem
    cases inp with
    | error e => cases hmem
    | ok root =>
      obtain ⟨p, hp, hmk⟩ := List.mem_filterMap.mp hmem
      cases p with
      | text s => cases hmk
      | elem ns tag attrs cs =>
        rw [mkSegment] at hmk
        by_cases ht : pyStrip (itertextL cs) = []
        · rw [if_pos ht] at hmk
          cases hmk
        · rw [if_neg ht] at hmk
          have hseg := Option.some.inj hmk
          subst hseg
          intro he
          exact ht (congrArg String.data he)
  · intro root p hp hstrip
    cases p with
    | text s => rfl
    | elem ns tag attrs cs =>
      have hstrip2 : pyStrip (itertextL cs) = [] := hstrip
      rw [mkSegment]
      rw [if_pos hstrip2]

/-- Witness for C10: non-empty sample text, a parse error input, and a
whitespace-only element. -/
theorem parse_ttml_invariants_witness :
    sampleSeg.text ≠ "" ∧
    parse_ttml_subtitles (.error "unclosed tag") = [] ∧
    mkSegment blankP = none :=
  ⟨parse_ttml_invariants.1 (.ok sampleRoot) sampleSeg
      (show sampleSeg ∈ [sampleSeg] from List.mem_singleton.mpr rfl),
    parse_ttml_invariants.2.1 "unclosed tag",
    parse_ttml_invariants.2.2 blankRoot blankP
      (show blankP ∈ [blankP] from List.mem_singleton.mpr rfl) (by decide)⟩

/-- C7: the health-check route answers 200 with status `running` for
every request. -/
theorem home_ok (now : String) :
    (home now).1 = 200 ∧ (home now).2.lookup "status" = some (.str "running") :=
  ⟨rfl, rfl⟩

/-- C6: a POST body that is absent or lacks the url key yields HTTP 400
with success false. -/
theorem missing_url_400 (data : Option (List (String × String))) (w : World)
    (h : data = none ∨ ∀ d, data = some d → d.lookup "url" = none) :
    (extract_subtitles_route data w).1 = 400 ∧
    (extract_subtitles_route data w).2.lookup "success" = some (.bool false) := by
  cases data with
  | none => exact ⟨rfl, rfl⟩
  | some d =>
    rcases h with h | h
    · cases h
    · have hd := h d rfl
      show (routeUrl w (d.lookup "url")).1 = 400 ∧
        (routeUrl w (d.lookup "url")).2.lookup "success" = some (.bool false)
      rw [hd]
      exact ⟨rfl, rfl⟩

/-- Witness for C6: an absent body and a body without the url key. -/
theorem missing_url_400_witness :
    ((extract_subtitles_route none ⟨false, .error "x", [], .error "y"⟩).1 = 400 ∧
      (extract_subtitles_route none ⟨false, .error "x", [], .error "y"⟩).2.lookup
        "success" = some (.bool false)) ∧
    ((extract_subtitles_route (some [("video", "abc")]) ⟨false, .error "x", [], .error "y"⟩).1
        = 400 ∧
      (extract_subtitles_route (some [("video", "abc")])
        ⟨false, .error "x", [], .error "y"⟩).2.lookup "success" = some (.bool false)) :=
  ⟨missing_url_400 none ⟨false, .error "x", [], .error "y"⟩ (Or.inl rfl),
    missing_url_400 (some [("video", "abc")]) ⟨false, .error "x", [], .error "y"⟩
      (Or.inr (fun d hd => by cases hd; rfl))⟩

/-- C8: a host or port flag supplied to the start script determines the
bind address; without a flag the config-file value is used, and the
built-in default when the file lacks the key or is absent or unreadable. -/
theorem cli_overrides_config :
    (∀ (h : String) (fs : FileState), resolveHost (some h) fs = h) ∧
    (∀ (p : Nat) (fs : FileState), resolvePort (some p) fs = p) ∧
    (∀ c hv, c.server_host = some hv → resolveHost none (.readable c) = hv) ∧
    (∀ c pv, c.server_port = some pv → resolvePort none (.readable c) = pv) ∧
    (∀ c, c.server_host = none → resolveHost none (.readable c) = "127.0.0.1") ∧
    (∀ c, c.server_port = none → resolvePort none (.readable c) = 5000) ∧
    (resolveHost none .absent = "127.0.0.1" ∧ resolvePort none .absent = 5000) ∧
    (resolveHost none .unreadable = "127.0.0.1" ∧ resolvePort none .unreadable = 5000) := by
  refine ⟨fun h fs => rfl, fun p fs => rfl, ?_, ?_, ?_, ?_, ⟨rfl, rfl⟩, ⟨rfl, rfl⟩⟩
  · intro c hv hc
    show c.server_host.getD "127.0.0.1" = hv
    rw [hc]
    rfl
  · intro c pv hc
    show c.server_port.getD 5000 = pv
    rw [hc]
    rfl
  · intro c hc
    show c.server_host.getD "127.0.0.1" = "127.0.0.1"
    rw [hc]
    rfl
  · intro c hc
    show c.server_port.getD 5000 = 5000
    rw [hc]
    rfl

/-- Witness for C8 at concrete flag and file combinations. -/
theorem cli_overrides_config_witness :
    resolveHost (some "0.0.0.0") (.readable ⟨some "10.0.0.2", some 8080⟩) = "0.0.0.0" ∧
    resolvePort (some 9999) (.readable ⟨some "10.0.0.2", some 8080⟩) = 9999 ∧
    resolveHost none (.readable ⟨some "10.0.0.2", some 8080⟩) = "10.0.0.2" ∧
    resolvePort none (.readable ⟨some "10.0.0.2", some 8080⟩) = 8080 ∧
    resolveHost none (.readable ⟨none, none⟩) = "127.0.0.1" ∧
    resolvePort none (.readable ⟨none, none⟩) = 5000 :=
  ⟨cli_overrides_config.1 "0.0.0.0" (.readable ⟨some "10.0.0.2", some 8080⟩),
    cli_overrides_config.2.1 9999 (.readable ⟨some "10.0.0.2", some 8080⟩),
    cli_overrides_config.2.2.1 ⟨some "10.0.0.2", some 8080⟩ "10.0.0.2" rfl,
    cli_overrides_config.2.2.2.1 ⟨some "10.0.0.2", some 8080⟩ 8080 rfl,
    cli_overrides_config.2.2.2.2.1 ⟨none, none⟩ rfl,
    cli_overrides_config.2.2.2.2.2.1 ⟨none, none⟩ rfl⟩

end NoticingGame
